import Mathlib

/-!
Verification of the `pdf_to_text.py` batch OCR pipeline.

The source program is a sequential pipeline: PDF rasterization (external
`convert_from_path`), per-page OCR (external `pytesseract.image_to_string`),
a fixed chain of regex cleanups, spaCy sentence segmentation (external),
a whitelist-aware spell-correcting word rewriter (external dictionary),
and filesystem orchestration (one `.txt` output per `.pdf` input, with a
skip-if-exists policy).

The shallow embedding below models the external engines (rasterizer, OCR,
segmenter, spell checker, similarity scorer behind `difflib.get_close_matches`)
as explicit function parameters, collected in a `Pipeline` record; the
filesystem is a partial map from paths to file contents.  Every regex
substitution in `clean_and_spellcheck_text` is translated into an executable
function on `List Char` whose action matches the (leftmost, greedy,
non-overlapping) semantics of the corresponding `re.sub` call.  Python's `\s`,
`\d`, `[a-z]`, `[A-Z]` are modelled on their ASCII fragments, which is the
range all checked claims quantify over.
-/

namespace PdfToText

/-- ASCII fragment of Python's regex class `\s`: space, tab, newline,
carriage return, vertical tab, form feed. -/
def isWs (c : Char) : Bool :=
  c == ' ' || c == '\t' || c == '\n' || c == '\r' || c == '\x0b' || c == '\x0c'

/-- Python regex class `[a-z]` (ASCII). -/
def isLowerAZ (c : Char) : Bool :=
  decide (97 ≤ c.toNat) && decide (c.toNat ≤ 122)

/-- Python regex class `[A-Z]` (ASCII). -/
def isUpperAZ (c : Char) : Bool :=
  decide (65 ≤ c.toNat) && decide (c.toNat ≤ 90)

/-- ASCII fragment of Python's regex class `\d`. -/
def isDigit09 (c : Char) : Bool :=
  decide (48 ≤ c.toNat) && decide (c.toNat ≤ 57)

/-- Model of `re.sub(r'c{2,}', 'c', text)`: each maximal run of the
character `c` is collapsed to a single `c` (runs of length one are already
single, so collapsing every run is the same substitution). -/
def squeeze (c : Char) : List Char → List Char
  | [] => []
  | [a] => [a]
  | a :: b :: t => if a == c && b == c then squeeze c (b :: t) else a :: squeeze c (b :: t)

/-- Model of `re.sub(r'c+', '', text)`: delete every occurrence of `c`. -/
def removeAll (c : Char) (l : List Char) : List Char :=
  l.filter (fun x => !(x == c))

/-- One-pass scanner behind `collapseWs`.  The state holds the pending
whitespace character of the current run: after one whitespace character the
run may still turn out to have length one (kept verbatim), from the second
onward the whole run is emitted as a single `' '`. -/
def collapseGo : Option Char → List Char → List Char
  | none, [] => []
  | some w, [] => [w]
  | none, a :: t => if isWs a then collapseGo (some a) t else a :: collapseGo none t
  | some w, a :: t => if isWs a then collapseGo (some ' ') t else w :: a :: collapseGo none t

/-- Model of `re.sub(r'\s{2,}', ' ', text)`: each maximal whitespace run of
length at least two becomes a single space; an isolated whitespace character
is kept unchanged. -/
def collapseWs (l : List Char) : List Char :=
  collapseGo none l

/-- The first five substitutions of `clean_and_spellcheck_text`, in source
order: collapse repeated periods, remove asterisks, remove middle dots,
collapse repeated newlines, collapse repeated whitespace. -/
def clean_steps_1_5 (l : List Char) : List Char :=
  collapseWs (squeeze '\n' (removeAll '·' (removeAll '*' (squeeze '.' l))))

/-- Model of `re.sub(r'(?<=[p])(?=[q])', '. ', text)` (used with
`p = [a-z], q = [A-Z]` and `p = [0-9], q = [A-Z]`): insert a period and a
space at every boundary between a `p`-character and a `q`-character. -/
def insert_dot_between (p q : Char → Bool) : List Char → List Char
  | [] => []
  | [a] => [a]
  | a :: b :: t =>
    if p a && q b then a :: '.' :: ' ' :: insert_dot_between p q (b :: t)
    else a :: insert_dot_between p q (b :: t)

/-- Suffix of a whitespace run after its last newline (used to model the
backtracking of the greedy `\s*` in `re.sub(r'\s*\n', '.\n', text)`). -/
def afterLastNl (run : List Char) : List Char :=
  (run.reverse.takeWhile (fun c => !(c == '\n'))).reverse

/-- Flush of a finished whitespace run for `sub_ws_nl`: if the run contains
a newline, its prefix up to and including the last newline matched `\s*\n`
and is replaced by `.\n`; otherwise the run is emitted unchanged. -/
def flushRun (pendingRev : List Char) : List Char :=
  let run := pendingRev.reverse
  if '\n' ∈ run then '.' :: '\n' :: afterLastNl run else run

/-- One-pass scanner behind `sub_ws_nl`, accumulating the current
whitespace run in reverse. -/
def subNlGo (pendingRev : List Char) : List Char → List Char
  | [] => flushRun pendingRev
  | a :: t =>
    if isWs a then subNlGo (a :: pendingRev) t
    else flushRun pendingRev ++ a :: subNlGo [] t

/-- Model of `re.sub(r'\s*\n', '.\n', text)`: in each maximal whitespace run
containing a newline, the greedy `\s*` backtracks to the last newline of the
run, so the run up to and including that newline is replaced by `.\n`. -/
def sub_ws_nl (l : List Char) : List Char :=
  subNlGo [] l

/-- The whole regex chain of `clean_and_spellcheck_text` (source lines
66–77): steps 1–5, then the two punctuation insertions, then the
end-of-line period substitution. -/
def normalize_regex (l : List Char) : List Char :=
  sub_ws_nl (insert_dot_between isDigit09 isUpperAZ
    (insert_dot_between isLowerAZ isUpperAZ (clean_steps_1_5 l)))

/-- Follows the spec's words for step 8 of §4.3 ("append a period
immediately before any remaining newline"): every newline is replaced by
`.\n`, nothing else changes. -/
def sub_nl_spec : List Char → List Char
  | [] => []
  | a :: t => if a == '\n' then '.' :: '\n' :: sub_nl_spec t else a :: sub_nl_spec t

/-- The eight rewrites in the exact order of spec §4.3, with step 8 taken
from the spec's words (`sub_nl_spec`); steps 1–7 are behaviourally identical
descriptions of the corresponding source substitutions. -/
def normalize_regex_spec (l : List Char) : List Char :=
  sub_nl_spec (insert_dot_between isDigit09 isUpperAZ
    (insert_dot_between isLowerAZ isUpperAZ (clean_steps_1_5 l)))

/-! ### OCR extraction (`ocr_pdf_to_text`) -/

/-- One page's contribution to the OCR blob:
`f"--- Page {page_num} ---\n{ocr_text}\n"`. -/
def pageSection (n : Nat) (t : String) : String :=
  "--- Page " ++ toString n ++ " ---\n" ++ t ++ "\n"

/-- The page loop of `ocr_pdf_to_text`: pages are numbered from `n`
(`enumerate(images, start=1)`); a page whose OCR fails (modelled as `none`)
is caught by the per-page `except` before the `full_text +=` line runs, so
it contributes nothing at all to the blob. -/
def ocr_pages {α : Type} (image_to_string : α → Option String) : Nat → List α → String
  | _, [] => ""
  | n, img :: rest =>
    (match image_to_string img with
     | some t => pageSection n t
     | none => "") ++ ocr_pages image_to_string (n + 1) rest

/-- `ocr_pdf_to_text(pdf_path)`: rasterize, then OCR page by page.  A
rasterization failure (`convert_from_path` raising, modelled as `none`)
returns the sentinel `None`. -/
def ocr_pdf_to_text {α : Type} (convert_from_path : String → Option (List α))
    (image_to_string : α → Option String) (pdf_path : String) : Option String :=
  match convert_from_path pdf_path with
  | none => none
  | some images => some (ocr_pages image_to_string 1 images)

/-- Follows the spec's words (§4.2): the final text is the concatenation of
`--- Page <n> ---\n<page_text>\n` for every attempted page, a failed page
contributing an empty `<page_text>`. -/
def ocr_pages_spec {α : Type} (image_to_string : α → Option String) :
    Nat → List α → String
  | _, [] => ""
  | n, img :: rest =>
    pageSection n ((image_to_string img).getD "") ++ ocr_pages_spec image_to_string (n + 1) rest

/-- Concatenation of a list of strings. -/
def strConcat (l : List String) : String :=
  l.foldr (· ++ ·) ""

/-! ### Whitelist matching and spell correction -/

/-- Ordering used by `difflib.get_close_matches`: higher similarity to
`word` first. -/
def simRel (similarity : String → String → ℚ) (word a b : String) : Prop :=
  similarity word b ≤ similarity word a

instance simRelDecidable (similarity : String → String → ℚ) (word : String) :
    DecidableRel (simRel similarity word) :=
  fun a b => inferInstanceAs (Decidable (similarity word b ≤ similarity word a))

/-- Model of `difflib.get_close_matches(word, possibilities, n, cutoff)`
(an external library call, modelled from its documented behaviour): the
possibilities scoring at least `cutoff` against `word`, best first, at most
`n` of them.  The similarity scorer (`SequenceMatcher.ratio`, a normalized
edit-similarity in `[0,1]`) is a parameter. -/
def get_close_matches (similarity : String → String → ℚ) (word : String)
    (possibilities : List String) (n : Nat) (cutoff : ℚ) : List String :=
  ((possibilities.filter (fun c => decide (cutoff ≤ similarity word c))).insertionSort
    (simRel similarity word)).take n

/-- `is_word_in_whitelist(word)` (source lines 37–39):
`bool(get_close_matches(word, dnd_whitelist, n=1, cutoff=0.8))`. -/
def is_word_in_whitelist (similarity : String → String → ℚ)
    (dnd_whitelist : List String) (word : String) : Bool :=
  !(get_close_matches similarity word dnd_whitelist 1 0.8).isEmpty

/-- The per-word body of the rewriting loop of `clean_and_spellcheck_text`
(source lines 88–103).  `spell_unknown` models `bool(spell.unknown([word]))`,
`spell_correction` models `spell.correction(word)` (`none` for Python
`None`); `correction if correction else word` also falls back on an empty
correction, and the `except` path keeps the original word, which a total
function does by construction. -/
def correct_word (dnd_whitelist : List String) (similarity : String → String → ℚ)
    (spell_unknown : String → Bool) (spell_correction : String → Option String)
    (word : String) : String :=
  if decide (word ∈ dnd_whitelist) || is_word_in_whitelist similarity dnd_whitelist word then
    word
  else if decide (15 < word.length) || word.data.any isDigit09 then
    word
  else if spell_unknown word then
    match spell_correction word with
    | some c => if c = "" then word else c
    | none => word
  else word

/-- One-pass scanner behind `split_words`, accumulating the current word in
reverse. -/
def splitGo (cur : List Char) : List Char → List (List Char)
  | [] => if cur.isEmpty then [] else [cur.reverse]
  | a :: t =>
    if isWs a then (if cur.isEmpty then splitGo [] t else cur.reverse :: splitGo [] t)
    else splitGo (a :: cur) t

/-- Python `sentence.split()`: maximal runs of non-whitespace characters,
empty tokens discarded. -/
def split_words (l : List Char) : List (List Char) :=
  splitGo [] l

/-- The external engines and process-wide read-only state of the program,
passed explicitly: the rasterizer and OCR engine of `ocr_pdf_to_text`, the
spaCy sentence segmenter (`[sent.text for sent in nlp(text).sents]`), the
whitelist loaded from `dnd_monster_whitelist.txt`, the similarity scorer
behind `difflib.get_close_matches`, and the two `SpellChecker` queries. -/
structure Pipeline (α : Type) where
  convert_from_path : String → Option (List α)
  image_to_string : α → Option String
  nlp_sents : String → List String
  dnd_whitelist : List String
  similarity : String → String → ℚ
  spell_unknown : String → Bool
  spell_correction : String → Option String

/-- `clean_and_spellcheck_text(text)` (source lines 64–107): regex chain,
sentence segmentation, per-word rewriting, words rejoined with single
spaces, sentences rejoined with `'\n\n'`. -/
def clean_and_spellcheck_text {α : Type} (env : Pipeline α) (text : String) : String :=
  String.intercalate "\n\n"
    ((env.nlp_sents (String.mk (normalize_regex text.data))).map (fun sentence =>
      String.intercalate " "
        (((split_words sentence.data).map String.mk).map
          (correct_word env.dnd_whitelist env.similarity env.spell_unknown
            env.spell_correction))))

/-! ### File orchestration -/

/-- The output filesystem: path to file contents (`none` = no such file). -/
def FileSys : Type :=
  String → Option String

/-- `open(path, 'w').write(content)` on the modelled filesystem. -/
def writeOut (fs : FileSys) (path content : String) : FileSys :=
  fun q => if q = path then some content else fs q

/-- `os.path.join` on the source's Windows configuration, for a directory
not ending in a separator. -/
def joinPath (dir fname : String) : String :=
  dir ++ "\\" ++ fname

/-- Characters that are not Windows path separators. -/
def nonSep (c : Char) : Bool :=
  !(c == '\\' || c == '/')

/-- `os.path.basename`: the suffix after the last path separator. -/
def basenameChars (l : List Char) : List Char :=
  (l.reverse.takeWhile nonSep).reverse

/-- The characters of the literal `'.pdf'`. -/
def pdfPat : List Char :=
  ['.', 'p', 'd', 'f']

/-- Substring occurrence test: does `pat` occur contiguously in the list? -/
def occursIn (pat : List Char) : List Char → Bool
  | [] => pat.isEmpty
  | a :: t => pat.isPrefixOf (a :: t) || occursIn pat t

/-- Fuel-indexed scanner behind `replaceAll`; the fuel is only a structural
recursion bound and `replaceAll` always supplies enough of it (each step
consumes at least one input character). -/
def replaceAllGo (pat repl : List Char) : Nat → List Char → List Char
  | _, [] => []
  | 0, l => l
  | fuel + 1, a :: t =>
    if !pat.isEmpty && pat.isPrefixOf (a :: t) then
      repl ++ replaceAllGo pat repl fuel ((a :: t).drop pat.length)
    else a :: replaceAllGo pat repl fuel t

/-- Python `str.replace(pat, repl)`: replace every non-overlapping
occurrence of `pat`, scanning left to right. -/
def replaceAll (pat repl l : List Char) : List Char :=
  replaceAllGo pat repl l.length l

/-- The target output path of `process_pdf_file` (source lines 116–119):
`os.path.join(txt_output_folder, basename(pdf_path).replace('.pdf', '') + '.txt')`.
Note `str.replace` removes every occurrence of `'.pdf'`, not only a final
extension. -/
def target_txt_path (pdf_path txt_output_folder : String) : String :=
  joinPath txt_output_folder
    (String.mk (replaceAll pdfPat [] (basenameChars pdf_path.data)) ++ ".txt")

/-- `process_pdf_file(pdf_path, txt_output_folder)` (source lines 110–141)
as a filesystem transformer: skip if the target exists; otherwise OCR, and
write the cleaned text only when the extracted text is truthy (Python
`if extracted_text:` is false both for `None` and for `""`). -/
def process_pdf_file {α : Type} (env : Pipeline α)
    (pdf_path txt_output_folder : String) (fs : FileSys) : FileSys :=
  if (fs (target_txt_path pdf_path txt_output_folder)).isSome then fs
  else
    match ocr_pdf_to_text env.convert_from_path env.image_to_string pdf_path with
    | none => fs
    | some extracted =>
      if extracted = "" then fs
      else writeOut fs (target_txt_path pdf_path txt_output_folder)
        (clean_and_spellcheck_text env extracted)

/-- `process_pdf_folder(pdf_folder, txt_output_folder)` (source lines
144–163): filter the directory listing (a parameter of the model; writing
`.txt` files never adds `.pdf` entries) to names ending in `".pdf"` and run
`process_pdf_file` on each in order. -/
def process_pdf_folder {α : Type} (env : Pipeline α) (listing : List String)
    (pdf_folder txt_output_folder : String) (fs : FileSys) : FileSys :=
  (listing.filter (fun f => pdfPat.isSuffixOf f.data)).foldl
    (fun acc file_name =>
      process_pdf_file env (joinPath pdf_folder file_name) txt_output_folder acc)
    fs

/-! ### Shared helper lemmas -/

/-- Python `if extracted_text:` is false both for `None` and for `""`; in
either case `process_pdf_file` leaves the filesystem untouched. -/
lemma process_pdf_file_not_truthy {α : Type} (env : Pipeline α)
    (pdf_path txt_output_folder : String) (fs : FileSys)
    (h : ocr_pdf_to_text env.convert_from_path env.image_to_string pdf_path = none ∨
         ocr_pdf_to_text env.convert_from_path env.image_to_string pdf_path = some "") :
    process_pdf_file env pdf_path txt_output_folder fs = fs := by
  unfold process_pdf_file
  by_cases hs : (fs (target_txt_path pdf_path txt_output_folder)).isSome = true
  · rw [if_pos hs]
  · rw [if_neg hs]
    rcases h with h | h
    · rw [h]
    · rw [h]
      show (if ("" : String) = "" then fs
        else writeOut fs (target_txt_path pdf_path txt_output_folder)
          (clean_and_spellcheck_text env "")) = fs
      rw [if_pos rfl]

/-- The page loop, rewritten as a `filterMap` over the 1-indexed
enumeration: only pages whose OCR succeeds contribute, each with its
original page number. -/
lemma ocr_pages_eq_enum {α : Type} (image_to_string : α → Option String) :
    ∀ (l : List α) (n : Nat),
      ocr_pages image_to_string n l =
        strConcat ((List.enumFrom n l).filterMap
          (fun pr => (image_to_string pr.2).map (fun t => pageSection pr.1 t))) := by
  intro l
  induction l with
  | nil => intro n; rfl
  | cons img rest ih =>
    intro n
    have henum : List.enumFrom n (img :: rest) = (n, img) :: List.enumFrom (n + 1) rest := rfl
    rw [henum, List.filterMap_cons]
    simp only [ocr_pages]
    cases hf : image_to_string img with
    | none =>
      show "" ++ ocr_pages image_to_string (n + 1) rest = _
      rw [ih]
      rfl
    | some t =>
      show pageSection n t ++ ocr_pages image_to_string (n + 1) rest = _
      rw [ih]
      rfl

/-! ### Concrete fixtures used by witnesses and counterexamples -/

/-- A pipeline whose rasterizer always fails. -/
def env0 : Pipeline Nat :=
  ⟨fun _ => none, fun _ => none, fun _ => [], [], fun _ _ => 0, fun _ => false, fun _ => none⟩

/-- A pipeline whose rasterizer yields a zero-page document. -/
def envEmptyPdf : Pipeline Nat :=
  ⟨fun _ => some [], fun _ => none, fun _ => [], [], fun _ _ => 0, fun _ => false, fun _ => none⟩

/-- An empty output filesystem. -/
def fsEmpty : FileSys := fun _ => none

/-- A filesystem on which every target file already exists. -/
def fsFull : FileSys := fun _ => some "existing"

/-- OCR double that fails exactly on page image `2`. -/
def ocrFail2 : Nat → Option String := fun i => if i == 2 then none else some ""

/-- Rasterizer double producing three page images. -/
def conv3 : String → Option (List Nat) := fun _ => some [1, 2, 3]

/-- Similarity double: `1` on equal strings, `0` otherwise. -/
def sim0 : String → String → ℚ := fun a b => if a = b then 1 else 0

/-! ### C1 -/

/-- C1 fails on the code: on a 3-page document whose page 2 OCR fails, the
blob is not the spec's concatenation with an empty page-2 section — the
`--- Page 2 ---` marker is absent altogether, because the marker append
sits inside the per-page `try` block. -/
theorem C1_counterexample :
    ocr_pdf_to_text conv3 ocrFail2 "doc.pdf" ≠ some (ocr_pages_spec ocrFail2 1 [1, 2, 3]) ∧
    occursIn "--- Page 2 ---".data
      ((ocr_pdf_to_text conv3 ocrFail2 "doc.pdf").getD "").data = false := by
  exact ⟨by decide, by decide⟩

/-- C1 (amended): for every PDF whose rasterization succeeds, the returned
text is the concatenation, in page order and 1-indexed, of the section
`--- Page <n> ---\n<page_text>\n` for every page whose OCR succeeds; a page
whose OCR fails contributes nothing at all (no marker and no body), and
later pages keep their original page numbers. -/
theorem C1_theorem {α : Type} (convert_from_path : String → Option (List α))
    (image_to_string : α → Option String) (pdf_path : String) (images : List α)
    (h : convert_from_path pdf_path = some images) :
    ocr_pdf_to_text convert_from_path image_to_string pdf_path =
      some (strConcat ((List.enumFrom 1 images).filterMap
        (fun pr => (image_to_string pr.2).map (fun t => pageSection pr.1 t)))) := by
  unfold ocr_pdf_to_text
  rw [h]
  exact congrArg some (ocr_pages_eq_enum image_to_string images 1)

/-- Witness for C1 at the concrete 3-page document with a page-2 failure. -/
theorem C1_witness :
    ocr_pdf_to_text conv3 ocrFail2 "doc.pdf" =
      some (strConcat ((List.enumFrom 1 [1, 2, 3]).filterMap
        (fun pr => (ocrFail2 pr.2).map (fun t => pageSection pr.1 t)))) :=
  C1_theorem conv3 ocrFail2 "doc.pdf" [1, 2, 3] rfl

/-! ### C4 -/

/-- C4: a word token exactly equal to a whitelist entry is kept verbatim by
the rewriter, whatever the similarity scorer and the dictionary do. -/
theorem C4_theorem (dnd_whitelist : List String) (similarity : String → String → ℚ)
    (spell_unknown : String → Bool) (spell_correction : String → Option String)
    (word : String) (h : word ∈ dnd_whitelist) :
    correct_word dnd_whitelist similarity spell_unknown spell_correction word = word := by
  unfold correct_word
  rw [if_pos]
  rw [decide_eq_true h]
  rfl

/-- Witness for C4: the whitelisted word `goblin` survives a dictionary that
flags every word and proposes a correction. -/
theorem C4_witness :
    correct_word ["goblin"] sim0 (fun _ => true) (fun _ => some "gobble") "goblin" = "goblin" :=
  C4_theorem ["goblin"] sim0 (fun _ => true) (fun _ => some "gobble") "goblin" (by decide)

/-! ### C5 -/

/-- C5: a word token longer than 15 characters, or containing a digit, is
kept verbatim by the rewriter (either through the whitelist branch or
through the length/digit guard). -/
theorem C5_theorem (dnd_whitelist : List String) (similarity : String → String → ℚ)
    (spell_unknown : String → Bool) (spell_correction : String → Option String)
    (word : String) (h : 15 < word.length ∨ word.data.any isDigit09 = true) :
    correct_word dnd_whitelist similarity spell_unknown spell_correction word = word := by
  unfold correct_word
  by_cases h1 : (decide (word ∈ dnd_whitelist) ||
      is_word_in_whitelist similarity dnd_whitelist word) = true
  · rw [if_pos h1]
  · rw [if_neg h1, if_pos]
    rcases h with h | h
    · rw [decide_eq_true h, Bool.true_or]
    · rw [h, Bool.or_true]

/-- Witness for C5 at a 16-character word. -/
theorem C5_witness :
    correct_word [] sim0 (fun _ => true) (fun _ => some "X") "abcdefghijklmnop" =
      "abcdefghijklmnop" :=
  C5_theorem [] sim0 (fun _ => true) (fun _ => some "X") "abcdefghijklmnop"
    (Or.inl (by decide))

/-! ### C9 -/

/-- C9: the fuzzy matcher answers true exactly when some whitelist entry
(equivalently, the best one) reaches similarity `0.8` against the word, and
a word literally in the whitelist (whose self-similarity is `1`) always
matches. -/
theorem C9_theorem (similarity : String → String → ℚ) (dnd_whitelist : List String)
    (word : String) :
    (is_word_in_whitelist similarity dnd_whitelist word = true ↔
      ∃ c ∈ dnd_whitelist, (0.8 : ℚ) ≤ similarity word c) ∧
    (word ∈ dnd_whitelist → similarity word word = 1 →
      is_word_in_whitelist similarity dnd_whitelist word = true) := by
  have key : is_word_in_whitelist similarity dnd_whitelist word = true ↔
      ∃ c ∈ dnd_whitelist, (0.8 : ℚ) ≤ similarity word c := by
    unfold is_word_in_whitelist get_close_matches
    constructor
    · intro h
      by_contra hno
      have hfil : dnd_whitelist.filter (fun c => decide ((0.8 : ℚ) ≤ similarity word c)) = [] := by
        rw [List.filter_eq_nil_iff]
        intro a ha hdec
        exact hno ⟨a, ha, of_decide_eq_true hdec⟩
      rw [hfil] at h
      simp at h
    · rintro ⟨c, hc, hsim⟩
      rw [Bool.not_eq_true']
      by_contra hempty
      rw [Bool.not_eq_false, List.isEmpty_iff, List.take_eq_nil_iff] at hempty
      rcases hempty with h1 | h1
      · exact one_ne_zero h1
      · have hperm := List.perm_insertionSort (simRel similarity word)
          (dnd_whitelist.filter (fun c => decide ((0.8 : ℚ) ≤ similarity word c)))
        rw [h1] at hperm
        have hfil := hperm.symm.eq_nil
        rw [List.filter_eq_nil_iff] at hfil
        exact hfil c hc (decide_eq_true hsim)
  exact ⟨key, fun hmem hsim => key.mpr ⟨word, hmem, by rw [hsim]; norm_num⟩⟩

/-- Witness for C9: a literal whitelist member matches. -/
theorem C9_witness : is_word_in_whitelist sim0 ["goblin"] "goblin" = true :=
  (C9_theorem sim0 ["goblin"] "goblin").2 (by decide) (by simp [sim0])

/-! ### C6 -/

/-- C6: when rasterization fails, the extractor returns the sentinel `none`
(in particular not the empty string), and the caller writes nothing and
returns the filesystem unchanged. -/
theorem C6_theorem {α : Type} (env : Pipeline α) (pdf_path : String)
    (h : env.convert_from_path pdf_path = none) :
    ocr_pdf_to_text env.convert_from_path env.image_to_string pdf_path = none ∧
    ocr_pdf_to_text env.convert_from_path env.image_to_string pdf_path ≠ some "" ∧
    ∀ (txt_output_folder : String) (fs : FileSys),
      process_pdf_file env pdf_path txt_output_folder fs = fs := by
  have hocr : ocr_pdf_to_text env.convert_from_path env.image_to_string pdf_path = none := by
    unfold ocr_pdf_to_text
    rw [h]
  exact ⟨hocr, by rw [hocr]; exact fun hc => Option.noConfusion hc,
    fun out fs => process_pdf_file_not_truthy env pdf_path out fs (Or.inl hocr)⟩

/-- Witness for C6 with an always-failing rasterizer. -/
theorem C6_witness : process_pdf_file env0 "a.pdf" "out" fsEmpty = fsEmpty :=
  (C6_theorem env0 "a.pdf" rfl).2.2 "out" fsEmpty

/-! ### C10 -/

/-- C10: when OCR extraction succeeds but yields the empty string (e.g. a
zero-page rasterization), the caller behaves exactly as for the sentinel
absence: no file is written and the filesystem is returned unchanged. -/
theorem C10_theorem {α : Type} (env : Pipeline α) (pdf_path txt_output_folder : String)
    (fs : FileSys)
    (h : ocr_pdf_to_text env.convert_from_path env.image_to_string pdf_path = some "") :
    process_pdf_file env pdf_path txt_output_folder fs = fs :=
  process_pdf_file_not_truthy env pdf_path txt_output_folder fs (Or.inr h)

/-- Witness for C10 with a zero-page document. -/
theorem C10_witness : process_pdf_file envEmptyPdf "b.pdf" "out" fsEmpty = fsEmpty :=
  C10_theorem envEmptyPdf "b.pdf" "out" fsEmpty rfl

/-! ### C8 -/

lemma string_data_append (s t : String) : (s ++ t).data = s.data ++ t.data := rfl

lemma takeWhile_all_append {p : Char → Bool} :
    ∀ (l1 : List Char) (b : Char) (l2 : List Char),
      (∀ x ∈ l1, p x = true) → p b = false →
      (l1 ++ b :: l2).takeWhile p = l1 := by
  intro l1
  induction l1 with
  | nil =>
    intro b l2 _ hb
    simp [List.takeWhile_cons, hb]
  | cons a t ih =>
    intro b l2 hall hb
    have ha := hall a (List.mem_cons_self a t)
    simp only [List.cons_append, List.takeWhile_cons, ha, if_true]
    rw [ih b l2 (fun x hx => hall x (List.mem_cons_of_mem a hx)) hb]

/-- `os.path.basename` of a path `dir\tail` whose tail has no separator. -/
lemma basename_after_sep (dl tl : List Char) (h : ∀ c ∈ tl, nonSep c = true) :
    basenameChars (dl ++ '\\' :: tl) = tl := by
  unfold basenameChars
  rw [List.reverse_append, List.reverse_cons, List.append_assoc, List.singleton_append]
  rw [takeWhile_all_append tl.reverse '\\' dl.reverse
    (fun x hx => h x (List.mem_reverse.mp hx)) (by decide)]
  exact List.reverse_reverse tl

lemma replaceAllGo_strip :
    ∀ (nl : List Char) (fuel : Nat), occursIn pdfPat nl = false →
      nl.length + 4 ≤ fuel →
      replaceAllGo pdfPat [] fuel (nl ++ pdfPat) = nl := by
  intro nl
  induction nl with
  | nil =>
    intro fuel _ hf
    obtain ⟨f, rfl⟩ : ∃ f, fuel = f + 1 := ⟨fuel - 1, by omega⟩
    show replaceAllGo pdfPat [] (f + 1) ('.' :: ['p', 'd', 'f']) = []
    simp [replaceAllGo, pdfPat]
  | cons x nt ih =>
    intro fuel h hf
    obtain ⟨f, rfl⟩ : ∃ f, fuel = f + 1 := ⟨fuel - 1, by omega⟩
    have h12 : pdfPat.isPrefixOf (x :: nt) = false ∧ occursIn pdfPat nt = false := by
      have := h
      unfold occursIn at this
      exact ⟨by rcases Bool.or_eq_false_iff.mp this with ⟨h1, _⟩; exact h1,
        by rcases Bool.or_eq_false_iff.mp this with ⟨_, h2⟩; exact h2⟩
    have hnp : pdfPat.isPrefixOf (x :: (nt ++ pdfPat)) = false := by
      by_cases hlen : 4 ≤ (x :: nt).length
      · cases hh : pdfPat.isPrefixOf (x :: (nt ++ pdfPat)) with
        | false => rfl
        | true =>
          exfalso
          have hpre : pdfPat <+: (x :: nt) ++ pdfPat := by
            rw [← List.isPrefixOf_iff_prefix, List.cons_append]
            exact hh
          have hlen4 : pdfPat.length = 4 := rfl
          have htake := List.prefix_iff_eq_take.mp hpre
          rw [hlen4, List.take_append_eq_append_take] at htake
          have hz : 4 - (x :: nt).length = 0 := by omega
          rw [hz, List.take_zero, List.append_nil] at htake
          have : pdfPat <+: (x :: nt) := htake ▸ List.take_prefix 4 (x :: nt)
          rw [← List.isPrefixOf_iff_prefix, h12.1] at this
          exact Bool.noConfusion this
      · rcases nt with _ | ⟨y, _ | ⟨z, _ | ⟨w, nt'⟩⟩⟩
        · simp [pdfPat, List.isPrefixOf]
        · simp [pdfPat, List.isPrefixOf]
        · simp [pdfPat, List.isPrefixOf]
        · exfalso
          apply hlen
          simp only [List.length_cons]
          omega
    show replaceAllGo pdfPat [] (f + 1) (x :: (nt ++ pdfPat)) = x :: nt
    unfold replaceAllGo
    rw [hnp, Bool.and_false, if_neg (by simp)]
    rw [ih f h12.2 (by simp only [List.length_cons] at hf; omega)]

/-- C8 fails on the code: for the input `a.pdfb.pdf` (base name `a.pdfb`),
the target is `ab.txt`, not `a.pdfb.txt`, because `str.replace('.pdf', '')`
removes every occurrence of `.pdf`, not only the final extension. -/
theorem C8_counterexample :
    target_txt_path "E:\\Books\\a.pdfb.pdf" "E:\\Out" = "E:\\Out\\ab.txt" ∧
    target_txt_path "E:\\Books\\a.pdfb.pdf" "E:\\Out" ≠ "E:\\Out\\a.pdfb.txt" := by
  exact ⟨by decide, by decide⟩

/-- C8 (amended): the target path is the PDF's base name with every
occurrence of the substring `.pdf` removed and `.txt` appended, placed in
the output directory; when the stem `<name>` contains no `.pdf` occurrence
(and no path separator), `<name>.pdf` maps to exactly `<name>.txt`. -/
theorem C8_theorem (dir txt_output_folder name : String)
    (hsep : ∀ c ∈ name.data, nonSep c = true)
    (hocc : occursIn pdfPat name.data = false) :
    target_txt_path (joinPath dir (name ++ ".pdf")) txt_output_folder =
      joinPath txt_output_folder (name ++ ".txt") := by
  unfold target_txt_path joinPath
  have hdata : ((dir ++ "\\") ++ (name ++ ".pdf")).data =
      dir.data ++ '\\' :: (name.data ++ pdfPat) := by
    rw [string_data_append, string_data_append, string_data_append]
    rw [show "\\".data = ['\\'] from rfl, show ".pdf".data = pdfPat from rfl]
    simp [List.append_assoc]
  rw [hdata]
  have hall : ∀ c ∈ name.data ++ pdfPat, nonSep c = true := by
    intro c hc
    rcases List.mem_append.mp hc with hc | hc
    · exact hsep c hc
    · have hp : ∀ c ∈ pdfPat, nonSep c = true := by decide
      exact hp c hc
  rw [basename_after_sep dir.data (name.data ++ pdfPat) hall]
  have hrep : replaceAll pdfPat [] (name.data ++ pdfPat) = name.data := by
    unfold replaceAll
    apply replaceAllGo_strip name.data _ hocc
    simp [pdfPat]
  rw [hrep]

/-- Witness for C8 at a clean stem. -/
theorem C8_witness :
    target_txt_path (joinPath "E:\\Books" ("a" ++ ".pdf")) "E:\\Out" =
      joinPath "E:\\Out" ("a" ++ ".txt") :=
  C8_theorem "E:\\Books" "E:\\Out" "a" (by decide) (by decide)

/-! ### Run-freeness machinery for the normalizer claims -/

lemma band_true_iff {a b : Bool} : (a && b) = true ↔ a = true ∧ b = true := by
  simp

lemma bnot_true_iff {b : Bool} : (!b) = true ↔ b = false := by
  simp

/-- No two adjacent characters of the list both satisfy `p`. -/
def noRun (p : Char → Bool) : List Char → Bool
  | [] => true
  | [_] => true
  | a :: b :: t => !(p a && p b) && noRun p (b :: t)

lemma noRun_cons_of {p : Char → Bool} {a : Char} {l : List Char}
    (h1 : ∀ x, l.head? = some x → (p a && p x) = false) (h2 : noRun p l = true) :
    noRun p (a :: l) = true := by
  cases l with
  | nil => rfl
  | cons b t =>
    show (!(p a && p b) && noRun p (b :: t)) = true
    rw [h1 b rfl, h2]
    rfl

lemma noRun_tail {p : Char → Bool} {a : Char} {l : List Char}
    (h : noRun p (a :: l) = true) : noRun p l = true := by
  cases l with
  | nil => rfl
  | cons b t => exact (band_true_iff.mp h).2

lemma noRun_pair {p : Char → Bool} {a b : Char} {t : List Char}
    (h : noRun p (a :: b :: t) = true) : (p a && p b) = false :=
  bnot_true_iff.mp (band_true_iff.mp h).1

lemma noRun_mono {p q : Char → Bool} (hpq : ∀ x, p x = true → q x = true) :
    ∀ {l : List Char}, noRun q l = true → noRun p l = true := by
  intro l
  induction l with
  | nil => intro _; rfl
  | cons a t ih =>
    intro h
    cases t with
    | nil => rfl
    | cons b t2 =>
      apply noRun_cons_of
      · intro x hx
        have hbx : b = x := by simpa using hx
        subst hbx
        cases hpa : p a with
        | false => rw [Bool.false_and]
        | true =>
          cases hpb : p b with
          | false => rw [Bool.and_false]
          | true =>
            exfalso
            have hq := noRun_pair h
            rw [hpq a hpa, hpq b hpb] at hq
            exact Bool.noConfusion hq
      · exact ih (noRun_tail h)

/-! ### `squeeze` lemmas -/

lemma squeeze_cons_cons (c a b : Char) (t : List Char) :
    squeeze c (a :: b :: t) =
      if a == c && b == c then squeeze c (b :: t) else a :: squeeze c (b :: t) := rfl

lemma squeeze_head? (c : Char) : ∀ (l : List Char), (squeeze c l).head? = l.head? := by
  intro l
  induction l with
  | nil => rfl
  | cons a t ih =>
    cases t with
    | nil => rfl
    | cons b t2 =>
      rw [squeeze_cons_cons]
      by_cases hab : (a == c && b == c) = true
      · rw [if_pos hab, ih]
        have ha : a = c := eq_of_beq (band_true_iff.mp hab).1
        have hb : b = c := eq_of_beq (band_true_iff.mp hab).2
        show some b = some a
        rw [ha, hb]
      · rw [if_neg hab]
        rfl

lemma squeeze_noRun (c : Char) : ∀ (l : List Char),
    noRun (fun x => x == c) (squeeze c l) = true := by
  intro l
  induction l with
  | nil => rfl
  | cons a t ih =>
    cases t with
    | nil => rfl
    | cons b t2 =>
      rw [squeeze_cons_cons]
      by_cases hab : (a == c && b == c) = true
      · rw [if_pos hab]; exact ih
      · rw [if_neg hab]
        apply noRun_cons_of
        · intro x hx
          rw [squeeze_head? c (b :: t2)] at hx
          have hbx : b = x := by simpa using hx
          subst hbx
          exact Bool.eq_false_iff.mpr hab
        · exact ih

lemma squeeze_eq_self (c : Char) : ∀ (l : List Char),
    noRun (fun x => x == c) l = true → squeeze c l = l := by
  intro l
  induction l with
  | nil => intro _; rfl
  | cons a t ih =>
    intro h
    cases t with
    | nil => rfl
    | cons b t2 =>
      rw [squeeze_cons_cons]
      have hf := noRun_pair h
      rw [if_neg (by simp [hf])]
      rw [ih (noRun_tail h)]

lemma squeeze_preserves_noRun {p : Char → Bool} {c : Char} :
    ∀ (l : List Char), noRun p l = true → noRun p (squeeze c l) = true := by
  intro l
  induction l with
  | nil => intro _; rfl
  | cons a t ih =>
    intro h
    cases t with
    | nil => rfl
    | cons b t2 =>
      rw [squeeze_cons_cons]
      by_cases hab : (a == c && b == c) = true
      · rw [if_pos hab]; exact ih (noRun_tail h)
      · rw [if_neg hab]
        apply noRun_cons_of
        · intro x hx
          rw [squeeze_head? c (b :: t2)] at hx
          have hbx : b = x := by simpa using hx
          subst hbx
          exact noRun_pair h
        · exact ih (noRun_tail h)

lemma mem_squeeze {c x : Char} : ∀ {l : List Char}, x ∈ squeeze c l → x ∈ l := by
  intro l
  induction l with
  | nil => intro h; simp [squeeze] at h
  | cons a t ih =>
    cases t with
    | nil => intro h; exact h
    | cons b t2 =>
      intro h
      rw [squeeze_cons_cons] at h
      by_cases hab : (a == c && b == c) = true
      · rw [if_pos hab] at h
        exact List.mem_cons_of_mem a (ih h)
      · rw [if_neg hab] at h
        rcases List.mem_cons.mp h with h | h
        · rw [h]; exact List.mem_cons_self a (b :: t2)
        · exact List.mem_cons_of_mem a (ih h)

/-! ### `removeAll` lemmas -/

lemma removeAll_eq_self {c : Char} {l : List Char} (h : c ∉ l) : removeAll c l = l := by
  unfold removeAll
  rw [List.filter_eq_self]
  intro a ha
  cases hac : a == c with
  | false => rfl
  | true => exact absurd (eq_of_beq hac ▸ ha) h

lemma mem_removeAll {c x : Char} {l : List Char} (h : x ∈ removeAll c l) : x ∈ l :=
  (List.mem_filter.mp h).1

lemma not_mem_removeAll (c : Char) (l : List Char) : c ∉ removeAll c l := by
  intro h
  have hb := (List.mem_filter.mp h).2
  simp at hb

/-! ### `collapseGo` lemmas -/

lemma collapseGo_none_cons (a : Char) (t : List Char) :
    collapseGo none (a :: t) =
      if isWs a then collapseGo (some a) t else a :: collapseGo none t := rfl

lemma collapseGo_some_cons (w a : Char) (t : List Char) :
    collapseGo (some w) (a :: t) =
      if isWs a then collapseGo (some ' ') t else w :: a :: collapseGo none t := rfl

lemma collapseGo_head_some : ∀ (l : List Char) (w x : Char),
    (collapseGo (some w) l).head? = some x → x = w ∨ x = ' ' := by
  intro l
  induction l with
  | nil =>
    intro w x hx
    left
    have : w = x := by simpa [collapseGo] using hx
    exact this.symm
  | cons a t ih =>
    intro w x hx
    by_cases ha : isWs a = true
    · rw [collapseGo_some_cons, if_pos ha] at hx
      rcases ih ' ' x hx with h | h
      · right; exact h
      · right; exact h
    · rw [collapseGo_some_cons, if_neg ha] at hx
      left
      have : w = x := by simpa using hx
      exact this.symm

lemma collapseGo_head_none : ∀ (l : List Char) (x : Char),
    (collapseGo none l).head? = some x → isWs x = true ∨ l.head? = some x := by
  intro l x hx
  cases l with
  | nil => simp [collapseGo] at hx
  | cons a t =>
    by_cases ha : isWs a = true
    · rw [collapseGo_none_cons, if_pos ha] at hx
      rcases collapseGo_head_some t a x hx with h | h
      · subst h; left; exact ha
      · subst h; left; decide
    · rw [collapseGo_none_cons, if_neg ha] at hx
      right
      exact hx

lemma collapseGo_noRun : ∀ (l : List Char),
    noRun isWs (collapseGo none l) = true ∧
    ∀ (w : Char), noRun isWs (collapseGo (some w) l) = true := by
  intro l
  induction l with
  | nil => exact ⟨rfl, fun _ => rfl⟩
  | cons a t ih =>
    constructor
    · by_cases ha : isWs a = true
      · rw [collapseGo_none_cons, if_pos ha]
        exact ih.2 a
      · rw [collapseGo_none_cons, if_neg ha]
        have ha' : isWs a = false := Bool.eq_false_iff.mpr ha
        apply noRun_cons_of
        · intro x _
          rw [ha', Bool.false_and]
        · exact ih.1
    · intro w
      by_cases ha : isWs a = true
      · rw [collapseGo_some_cons, if_pos ha]
        exact ih.2 ' '
      · rw [collapseGo_some_cons, if_neg ha]
        have ha' : isWs a = false := Bool.eq_false_iff.mpr ha
        apply noRun_cons_of
        · intro x hx
          have hax : a = x := by simpa using hx
          subst hax
          rw [ha', Bool.and_false]
        · apply noRun_cons_of
          · intro x _
            rw [ha', Bool.false_and]
          · exact ih.1

lemma collapseGo_eq_self : ∀ (l : List Char), noRun isWs l = true →
    (collapseGo none l = l ∧
     ∀ (w : Char), (∀ x, l.head? = some x → isWs x = false) →
       collapseGo (some w) l = w :: l) := by
  intro l
  induction l with
  | nil => exact fun _ => ⟨rfl, fun _ _ => rfl⟩
  | cons a t ih =>
    intro h
    have iht := ih (noRun_tail h)
    constructor
    · by_cases ha : isWs a = true
      · rw [collapseGo_none_cons, if_pos ha]
        apply iht.2 a
        intro x hx
        cases t with
        | nil => simp at hx
        | cons b t2 =>
          have hbx : b = x := by simpa using hx
          subst hbx
          have hp := noRun_pair h
          rw [ha, Bool.true_and] at hp
          exact hp
      · rw [collapseGo_none_cons, if_neg ha, iht.1]
    · intro w hhead
      have ha' : isWs a = false := hhead a rfl
      rw [collapseGo_some_cons, if_neg (by simp [ha']), iht.1]

lemma collapseGo_preserves_noRun {p : Char → Bool} (hws : ∀ c, isWs c = true → p c = false) :
    ∀ (l : List Char), noRun p l = true →
      noRun p (collapseGo none l) = true ∧
      ∀ (w : Char), isWs w = true → noRun p (collapseGo (some w) l) = true := by
  intro l
  induction l with
  | nil => exact fun _ => ⟨rfl, fun _ _ => rfl⟩
  | cons a t ih =>
    intro h
    have iht := ih (noRun_tail h)
    have hpr : ∀ x, (collapseGo none t).head? = some x → (p a && p x) = false := by
      intro x hx
      rcases collapseGo_head_none t x hx with hxw | hxh
      · rw [hws x hxw, Bool.and_false]
      · cases t with
        | nil => simp at hxh
        | cons b t2 =>
          have hbx : b = x := by simpa using hxh
          subst hbx
          exact noRun_pair h
    constructor
    · by_cases ha : isWs a = true
      · rw [collapseGo_none_cons, if_pos ha]
        exact iht.2 a ha
      · rw [collapseGo_none_cons, if_neg ha]
        exact noRun_cons_of hpr iht.1
    · intro w hw
      by_cases ha : isWs a = true
      · rw [collapseGo_some_cons, if_pos ha]
        exact iht.2 ' ' (by decide)
      · rw [collapseGo_some_cons, if_neg ha]
        apply noRun_cons_of
        · intro x _
          rw [hws w hw, Bool.false_and]
        · exact noRun_cons_of hpr iht.1

lemma mem_collapseGo : ∀ (l : List Char) (s : Option Char) (x : Char),
    x ∈ collapseGo s l → x ∈ l ∨ x = ' ' ∨ s = some x := by
  intro l
  induction l with
  | nil =>
    intro s x hx
    cases s with
    | none => simp [collapseGo] at hx
    | some w =>
      right; right
      have : x = w := by simpa [collapseGo] using hx
      rw [this]
  | cons a t ih =>
    intro s x hx
    cases s with
    | none =>
      rw [collapseGo_none_cons] at hx
      by_cases ha : isWs a = true
      · rw [if_pos ha] at hx
        rcases ih (some a) x hx with h | h | h
        · exact Or.inl (List.mem_cons_of_mem a h)
        · exact Or.inr (Or.inl h)
        · left
          have hax : a = x := by simpa using h
          rw [← hax]
          exact List.mem_cons_self a t
      · rw [if_neg ha] at hx
        rcases List.mem_cons.mp hx with h | h
        · left; rw [h]; exact List.mem_cons_self a t
        · rcases ih none x h with h2 | h2 | h2
          · exact Or.inl (List.mem_cons_of_mem a h2)
          · exact Or.inr (Or.inl h2)
          · simp at h2
    | some w =>
      rw [collapseGo_some_cons] at hx
      by_cases ha : isWs a = true
      · rw [if_pos ha] at hx
        rcases ih (some ' ') x hx with h | h | h
        · exact Or.inl (List.mem_cons_of_mem a h)
        · exact Or.inr (Or.inl h)
        · have : ' ' = x := by simpa using h
          exact Or.inr (Or.inl this.symm)
      · rw [if_neg ha] at hx
        rcases List.mem_cons.mp hx with h | h
        · exact Or.inr (Or.inr (by rw [h]))
        · rcases List.mem_cons.mp h with h2 | h2
          · left; rw [h2]; exact List.mem_cons_self a t
          · rcases ih none x h2 with h3 | h3 | h3
            · exact Or.inl (List.mem_cons_of_mem a h3)
            · exact Or.inr (Or.inl h3)
            · simp at h3

/-! ### Invariants of `clean_steps_1_5` -/

lemma ws_char_cases {c : Char} (hc : isWs c = true) :
    c = ' ' ∨ c = '\t' ∨ c = '\n' ∨ c = '\r' ∨ c = '\x0b' ∨ c = '\x0c' := by
  unfold isWs at hc
  simp only [Bool.or_eq_true, beq_iff_eq] at hc
  tauto

lemma ws_not_dot : ∀ c, isWs c = true → (c == '.') = false := by
  intro c hc
  rcases ws_char_cases hc with rfl | rfl | rfl | rfl | rfl | rfl <;> decide

lemma nl_is_ws : ∀ x, (x == '\n') = true → isWs x = true := by
  intro x hx
  rw [eq_of_beq hx]
  decide

/-- Output of the collapse pipeline contains no adjacent whitespace pair. -/
lemma clean_out_noRun_ws (l : List Char) : noRun isWs (clean_steps_1_5 l) = true := by
  unfold clean_steps_1_5 collapseWs
  exact (collapseGo_noRun _).1

/-- On an input free of asterisks and middle dots, the two filters of the
collapse pipeline are the identity. -/
lemma clean_steps_1_5_no_star_dot {l : List Char} (h1 : '*' ∉ l) (h2 : '·' ∉ l) :
    clean_steps_1_5 l = collapseWs (squeeze '\n' (squeeze '.' l)) := by
  unfold clean_steps_1_5
  rw [removeAll_eq_self (fun hm => h1 (mem_squeeze hm)),
      removeAll_eq_self (fun hm => h2 (mem_squeeze hm))]

/-- On an input free of asterisks and middle dots, the output of the
collapse pipeline contains no adjacent period pair. -/
lemma clean_out_noRun_dot {l : List Char} (h1 : '*' ∉ l) (h2 : '·' ∉ l) :
    noRun (fun x => x == '.') (clean_steps_1_5 l) = true := by
  rw [clean_steps_1_5_no_star_dot h1 h2]
  unfold collapseWs
  exact (collapseGo_preserves_noRun ws_not_dot _
    (squeeze_preserves_noRun _ (squeeze_noRun '.' l))).1

lemma clean_out_no_star (l : List Char) : '*' ∉ clean_steps_1_5 l := by
  unfold clean_steps_1_5 collapseWs
  intro h
  rcases mem_collapseGo _ none '*' h with h | h | h
  · exact not_mem_removeAll '*' _ (mem_removeAll (mem_squeeze h))
  · exact absurd h (by decide)
  · simp at h

lemma clean_out_no_middot (l : List Char) : '·' ∉ clean_steps_1_5 l := by
  unfold clean_steps_1_5 collapseWs
  intro h
  rcases mem_collapseGo _ none '·' h with h | h | h
  · exact not_mem_removeAll '·' _ (mem_squeeze h)
  · exact absurd h (by decide)
  · simp at h

/-! ### C2 -/

/-- C2 fails on the code: on `".*."` one pass of steps 1–5 yields `".."`
(the asterisk removal of step 2 joins the two periods after step 1 already
ran) and a second pass collapses that to `"."`. -/
theorem C2_counterexample :
    clean_steps_1_5 (clean_steps_1_5 ".*.".data) ≠ clean_steps_1_5 ".*.".data := by
  decide

/-- C2 (amended): the steps-1–5 collapse pipeline is idempotent on every
input containing no asterisk and no middle dot; in general a second pass
can differ, because removing asterisks or middle dots (steps 2–3) may
create new period runs after step 1 has already run. -/
theorem C2_theorem (l : List Char) (h1 : '*' ∉ l) (h2 : '·' ∉ l) :
    clean_steps_1_5 (clean_steps_1_5 l) = clean_steps_1_5 l := by
  have hws := clean_out_noRun_ws l
  have hdot := clean_out_noRun_dot h1 h2
  have hstar := clean_out_no_star l
  have hmid := clean_out_no_middot l
  generalize ht : clean_steps_1_5 l = t at hws hdot hstar hmid
  unfold clean_steps_1_5
  rw [squeeze_eq_self '.' t hdot]
  rw [removeAll_eq_self hstar, removeAll_eq_self hmid]
  rw [squeeze_eq_self '\n' t (noRun_mono nl_is_ws hws)]
  exact (collapseGo_eq_self t hws).1

/-- Witness for C2 on a concrete asterisk-free input. -/
theorem C2_witness :
    clean_steps_1_5 (clean_steps_1_5 "a....b  c\n\nd".data) =
      clean_steps_1_5 "a....b  c\n\nd".data :=
  C2_theorem "a....b  c\n\nd".data (by decide) (by decide)

/-! ### C3: the insertion steps and the end-of-line period step -/

lemma upper_not_ws : ∀ x, isUpperAZ x = true → isWs x = false := by
  intro x hx
  unfold isUpperAZ at hx
  simp only [Bool.and_eq_true, decide_eq_true_eq] at hx
  cases hws : isWs x with
  | false => rfl
  | true =>
    exfalso
    rcases ws_char_cases hws with rfl | rfl | rfl | rfl | rfl | rfl <;>
      exact absurd hx (by decide)

lemma insert_dot_cons_cons (p q : Char → Bool) (a b : Char) (t : List Char) :
    insert_dot_between p q (a :: b :: t) =
      if p a && q b then a :: '.' :: ' ' :: insert_dot_between p q (b :: t)
      else a :: insert_dot_between p q (b :: t) := rfl

lemma insert_dot_head (p q : Char → Bool) (a : Char) (t : List Char) :
    (insert_dot_between p q (a :: t)).head? = some a := by
  cases t with
  | nil => rfl
  | cons b t2 =>
    rw [insert_dot_cons_cons]
    by_cases hpq : (p a && q b) = true
    · rw [if_pos hpq]; rfl
    · rw [if_neg hpq]; rfl

/-- The punctuation-insertion steps preserve whitespace run-freeness,
because the inserted `". "` sits between a non-whitespace character and a
`q`-character, and `q`-characters (uppercase letters) are not whitespace. -/
lemma insert_dot_noRun_ws {p q : Char → Bool} (hq : ∀ x, q x = true → isWs x = false) :
    ∀ (l : List Char), noRun isWs l = true →
      noRun isWs (insert_dot_between p q l) = true := by
  intro l
  induction l with
  | nil => intro _; rfl
  | cons a t ih =>
    intro h
    cases t with
    | nil => rfl
    | cons b t2 =>
      rw [insert_dot_cons_cons]
      by_cases hpq : (p a && q b) = true
      · rw [if_pos hpq]
        have hb : isWs b = false := hq b (band_true_iff.mp hpq).2
        apply noRun_cons_of
        · intro x hx
          have hxd : '.' = x := by simpa using hx
          subst hxd
          rw [show isWs '.' = false from by decide, Bool.and_false]
        · apply noRun_cons_of
          · intro x _
            rw [show isWs '.' = false from by decide, Bool.false_and]
          · apply noRun_cons_of
            · intro x hx
              rw [insert_dot_head] at hx
              have hbx : b = x := by simpa using hx
              subst hbx
              rw [hb, Bool.and_false]
            · exact ih (noRun_tail h)
      · rw [if_neg hpq]
        apply noRun_cons_of
        · intro x hx
          rw [insert_dot_head] at hx
          have hbx : b = x := by simpa using hx
          subst hbx
          exact noRun_pair h
        · exact ih (noRun_tail h)

lemma subNlGo_nil (pendingRev : List Char) : subNlGo pendingRev [] = flushRun pendingRev := rfl

lemma subNlGo_cons (pendingRev : List Char) (a : Char) (t : List Char) :
    subNlGo pendingRev (a :: t) =
      if isWs a then subNlGo (a :: pendingRev) t
      else flushRun pendingRev ++ a :: subNlGo [] t := rfl

lemma sub_nl_spec_cons (a : Char) (t : List Char) :
    sub_nl_spec (a :: t) =
      if a == '\n' then '.' :: '\n' :: sub_nl_spec t else a :: sub_nl_spec t := rfl

lemma flushRun_nil : flushRun [] = [] := by decide

lemma flushRun_single_nl : flushRun ['\n'] = ['.', '\n'] := by decide

lemma flushRun_single {w : Char} (hw : w ≠ '\n') : flushRun [w] = [w] := by
  unfold flushRun
  rw [List.reverse_singleton]
  rw [if_neg (by simp [List.mem_singleton]; exact fun h => hw h.symm)]

/-- On whitespace-run-free text, the source's `re.sub(r'\s*\n', '.\n', ·)`
coincides with the spec's "append a period before each newline": every
whitespace run has length one, so the greedy `\s*` is always empty. -/
lemma subNlGo_eq_spec : ∀ (l : List Char), noRun isWs l = true →
    (subNlGo [] l = sub_nl_spec l ∧
     ∀ (w : Char), (∀ x, l.head? = some x → isWs x = false) →
       subNlGo [w] l = flushRun [w] ++ sub_nl_spec l) := by
  intro l
  induction l with
  | nil =>
    intro _
    constructor
    · rw [subNlGo_nil, flushRun_nil]; rfl
    · intro w _
      rw [subNlGo_nil]
      show flushRun [w] = flushRun [w] ++ []
      rw [List.append_nil]
  | cons a t ih =>
    intro h
    have iht := ih (noRun_tail h)
    have hhead : isWs a = true → ∀ x, t.head? = some x → isWs x = false := by
      intro ha x hx
      cases t with
      | nil => simp at hx
      | cons b t2 =>
        have hbx : b = x := by simpa using hx
        subst hbx
        have hp := noRun_pair h
        rw [ha, Bool.true_and] at hp
        exact hp
    constructor
    · by_cases ha : isWs a = true
      · rw [subNlGo_cons, if_pos ha]
        rw [iht.2 a (hhead ha)]
        by_cases han : a = '\n'
        · subst han
          rw [flushRun_single_nl, sub_nl_spec_cons, if_pos (by decide)]
          rfl
        · rw [flushRun_single han, sub_nl_spec_cons,
            if_neg (fun hc => han (eq_of_beq hc))]
          rfl
      · rw [subNlGo_cons, if_neg ha, iht.1, flushRun_nil, List.nil_append]
        rw [sub_nl_spec_cons, if_neg (fun hc => ha (by rw [eq_of_beq hc]; decide))]
    · intro w hh
      have ha' : isWs a = false := hh a rfl
      rw [subNlGo_cons, if_neg (by simp [ha']), iht.1]
      rw [sub_nl_spec_cons,
        if_neg (fun hc => by rw [eq_of_beq hc] at ha'; exact absurd ha' (by decide))]

/-- C3: the normalizer equals the spec's eight ordered rewrites.  Steps 1–7
are shared definitions translated from the source; the source's step 8
(`\s*\n` → `.\n`) agrees with the spec's step 8 (insert a period before
each remaining newline) on every input, because steps 4–5 leave no
whitespace runs and steps 6–7 insert their space only in front of an
uppercase letter. -/
theorem C3_theorem (l : List Char) : normalize_regex l = normalize_regex_spec l := by
  unfold normalize_regex normalize_regex_spec sub_ws_nl
  have h5 : noRun isWs (clean_steps_1_5 l) = true := clean_out_noRun_ws l
  have h6 : noRun isWs (insert_dot_between isLowerAZ isUpperAZ (clean_steps_1_5 l)) = true :=
    insert_dot_noRun_ws upper_not_ws _ h5
  have h7 : noRun isWs (insert_dot_between isDigit09 isUpperAZ
      (insert_dot_between isLowerAZ isUpperAZ (clean_steps_1_5 l))) = true :=
    insert_dot_noRun_ws upper_not_ws _ h6
  exact (subNlGo_eq_spec _ h7).1

/-! ### C7: skip-if-exists and idempotence of the folder run -/

lemma process_pdf_file_skip {α : Type} (env : Pipeline α)
    (pdf_path txt_output_folder : String) (fs : FileSys)
    (h : (fs (target_txt_path pdf_path txt_output_folder)).isSome = true) :
    process_pdf_file env pdf_path txt_output_folder fs = fs := by
  unfold process_pdf_file
  rw [if_pos h]

/-- `process_pdf_file` never deletes a file: any existing path still exists
afterwards. -/
lemma process_pdf_file_mono {α : Type} (env : Pipeline α)
    (pdf_path txt_output_folder : String) (fs : FileSys) (q : String)
    (h : (fs q).isSome = true) :
    ((process_pdf_file env pdf_path txt_output_folder fs) q).isSome = true := by
  unfold process_pdf_file
  by_cases hs : (fs (target_txt_path pdf_path txt_output_folder)).isSome = true
  · rw [if_pos hs]; exact h
  · rw [if_neg hs]
    cases hocr : ocr_pdf_to_text env.convert_from_path env.image_to_string pdf_path with
    | none => exact h
    | some t =>
      show ((if t = "" then fs
        else writeOut fs (target_txt_path pdf_path txt_output_folder)
          (clean_and_spellcheck_text env t)) q).isSome = true
      by_cases ht : t = ""
      · rw [if_pos ht]; exact h
      · rw [if_neg ht]
        unfold writeOut
        by_cases hq : q = target_txt_path pdf_path txt_output_folder
        · rw [if_pos hq]; rfl
        · rw [if_neg hq]; exact h

/-- After one `process_pdf_file` call, either the target file exists, or
the extraction for that document is falsy (a fact independent of the
filesystem, so it holds again on any later run). -/
lemma process_pdf_file_cases {α : Type} (env : Pipeline α)
    (pdf_path txt_output_folder : String) (fs : FileSys) :
    ((process_pdf_file env pdf_path txt_output_folder fs)
        (target_txt_path pdf_path txt_output_folder)).isSome = true ∨
      (ocr_pdf_to_text env.convert_from_path env.image_to_string pdf_path = none ∨
       ocr_pdf_to_text env.convert_from_path env.image_to_string pdf_path = some "") := by
  by_cases hs : (fs (target_txt_path pdf_path txt_output_folder)).isSome = true
  · left
    rw [process_pdf_file_skip env _ _ _ hs]
    exact hs
  · unfold process_pdf_file
    rw [if_neg hs]
    cases hocr : ocr_pdf_to_text env.convert_from_path env.image_to_string pdf_path with
    | none => exact Or.inr (Or.inl rfl)
    | some t =>
      by_cases ht : t = ""
      · subst ht
        exact Or.inr (Or.inr rfl)
      · left
        show ((if t = "" then fs
          else writeOut fs (target_txt_path pdf_path txt_output_folder)
            (clean_and_spellcheck_text env t))
          (target_txt_path pdf_path txt_output_folder)).isSome = true
        rw [if_neg ht]
        unfold writeOut
        rw [if_pos rfl]
        rfl

/-- The per-file body of the folder loop. -/
def folderStep {α : Type} (env : Pipeline α) (pdf_folder txt_output_folder : String)
    (acc : FileSys) (file_name : String) : FileSys :=
  process_pdf_file env (joinPath pdf_folder file_name) txt_output_folder acc

lemma process_pdf_folder_eq {α : Type} (env : Pipeline α) (listing : List String)
    (pdf_folder txt_output_folder : String) (fs : FileSys) :
    process_pdf_folder env listing pdf_folder txt_output_folder fs =
      (listing.filter (fun f => pdfPat.isSuffixOf f.data)).foldl
        (folderStep env pdf_folder txt_output_folder) fs := rfl

lemma foldl_step_mono {α : Type} (env : Pipeline α) (d o : String) :
    ∀ (files : List String) (fs : FileSys) (q : String),
      (fs q).isSome = true →
      ((files.foldl (folderStep env d o) fs) q).isSome = true := by
  intro files
  induction files with
  | nil => intro fs q h; exact h
  | cons f rest ih =>
    intro fs q h
    exact ih _ q (process_pdf_file_mono env _ _ fs q h)

lemma foldl_step_reaches {α : Type} (env : Pipeline α) (d o : String) :
    ∀ (files : List String) (fs : FileSys) (f : String), f ∈ files →
      (((files.foldl (folderStep env d o) fs) (target_txt_path (joinPath d f) o)).isSome =
          true) ∨
      (ocr_pdf_to_text env.convert_from_path env.image_to_string (joinPath d f) = none ∨
       ocr_pdf_to_text env.convert_from_path env.image_to_string (joinPath d f) = some "") := by
  intro files
  induction files with
  | nil => intro fs f hf; simp at hf
  | cons g rest ih =>
    intro fs f hf
    rcases List.mem_cons.mp hf with hf | hf
    · subst hf
      rcases process_pdf_file_cases env (joinPath d f) o fs with h | h
      · left
        exact foldl_step_mono env d o rest _ _ h
      · right; exact h
    · exact ih (folderStep env d o fs g) f hf

lemma foldl_step_fixed {α : Type} (env : Pipeline α) (d o : String) :
    ∀ (files : List String) (fs : FileSys),
      (∀ f ∈ files,
        ((fs (target_txt_path (joinPath d f) o)).isSome = true) ∨
        (ocr_pdf_to_text env.convert_from_path env.image_to_string (joinPath d f) = none ∨
         ocr_pdf_to_text env.convert_from_path env.image_to_string (joinPath d f) = some "")) →
      files.foldl (folderStep env d o) fs = fs := by
  intro files
  induction files with
  | nil => intro fs _; rfl
  | cons g rest ih =>
    intro fs H
    have hstep : folderStep env d o fs g = fs := by
      rcases H g (List.mem_cons_self g rest) with h | h
      · exact process_pdf_file_skip env _ _ fs h
      · exact process_pdf_file_not_truthy env _ _ fs h
    show rest.foldl (folderStep env d o) (folderStep env d o fs g) = fs
    rw [hstep]
    exact ih fs (fun f hf => H f (List.mem_cons_of_mem g hf))

/-- C7: (1) when the target `.txt` file already exists the document is
skipped entirely — the resulting filesystem is the input one, unchanged at
every path, and in particular the result does not depend on the OCR,
normalization or rewriting components; (2) consequently a second run of the
folder processor over the same listing and directories changes nothing. -/
theorem C7_theorem :
    (∀ {α : Type} (env : Pipeline α) (pdf_path txt_output_folder : String) (fs : FileSys),
        (fs (target_txt_path pdf_path txt_output_folder)).isSome = true →
        process_pdf_file env pdf_path txt_output_folder fs = fs) ∧
    (∀ {α : Type} (env : Pipeline α) (listing : List String)
        (pdf_folder txt_output_folder : String) (fs : FileSys),
        process_pdf_folder env listing pdf_folder txt_output_folder
            (process_pdf_folder env listing pdf_folder txt_output_folder fs) =
          process_pdf_folder env listing pdf_folder txt_output_folder fs) := by
  constructor
  · intro α env pdf_path txt_output_folder fs h
    exact process_pdf_file_skip env pdf_path txt_output_folder fs h
  · intro α env listing d o fs
    rw [process_pdf_folder_eq, process_pdf_folder_eq]
    apply foldl_step_fixed
    intro f hf
    exact foldl_step_reaches env d o _ fs f hf

/-- Witness for C7 on a filesystem where the target already exists. -/
theorem C7_witness : process_pdf_file env0 "a.pdf" "out" fsFull = fsFull :=
  C7_theorem.1 env0 "a.pdf" "out" fsFull rfl

end PdfToText
